import Mathlib

/-!
Shallow embedding of `shed/stats/src/thread_local_aggregator.rs`.

The module keeps a process-wide atomic flag `STATS_SCHEDULED`, a mutex-guarded
vector `STATS_AGGREGATOR` of `Arc<ThreadMap<BoxStatsManager>>` containers, the
registration function `create_map`, the aggregation pass
`StatsAggregator::aggregate`, two scheduling entry points
(`schedule_stats_aggregation` and `schedule_stats_aggregation_preview`) and two
stream-driven aggregation drivers (`schedule_stats_on_stream` and
`schedule_stats_on_stream_preview`).

The embedding makes the global state explicit.  A container is identified by
the natural number under which it was allocated; the heap maps each identifier
to the list of per-thread stats-manager instances currently live in that
container.  The element type `σ` and the per-instance merge `aggStep : σ → σ`
stand for the external `StatsManager` capability and its `aggregate()` method.
Panics (a poisoned registry mutex) are modelled as `none`.
-/

/-- Process-wide state of the thread-local stats core: the `STATS_SCHEDULED`
atomic flag, the poison state of the `STATS_AGGREGATOR` mutex, the registry of
container handles guarded by that mutex, and the heap backing the shared
containers.  `nextId` is the allocator counter for container identities;
`taskCount` is a ghost counter of scheduler futures constructed so far, used
to state freshness of tasks. -/
@[ext]
structure ProcState (σ : Type) where
  scheduled : Bool
  poisoned : Bool
  nextId : Nat
  registry : List Nat
  heap : Nat → List σ
  taskCount : Nat

/-- `Mutex::lock().expect(..)` — acquiring a poisoned lock panics (`none`);
otherwise it yields the guarded data. -/
def lockAcquire {α : Type} (poisoned : Bool) (a : α) : Option α :=
  if poisoned then none else some a

/-- `StatsAggregator::aggregate`: locks the registry and, for each registered
container in registration order, visits every per-thread instance currently in
that container, applying the external `aggregate()` to it.  The per-container
visitation (`ThreadMap::for_each` from the `perthread` crate, outside this
source file) is modelled from the spec: it calls `aggregate()` on every
per-thread instance currently registered in that container. -/
def StatsAggregator.aggregate {σ : Type} (aggStep : σ → σ) (s : ProcState σ) :
    Option (ProcState σ) :=
  (lockAcquire s.poisoned s.registry).map fun thread_maps =>
    { s with
      heap := thread_maps.foldl
        (fun h id => Function.update h id ((h id).map aggStep)) s.heap }

/-- `create_map`: creates a fresh empty `ThreadMap`, wraps it in an `Arc`,
locks the registry, pushes a clone of the handle, and returns the handle.
The returned `Nat` is the identity of the shared container: the same identity
is appended to the registry, modelling the shared `Arc`. -/
def create_map {σ : Type} (s : ProcState σ) : Option (Nat × ProcState σ) :=
  (lockAcquire s.poisoned ()).map fun _ =>
    (s.nextId,
      { s with
        registry := s.registry ++ [s.nextId]
        heap := Function.update s.heap s.nextId []
        nextId := s.nextId + 1 })

/-- Modelled from the spec: per-thread instance creation inside
`perthread::ThreadMap` (not part of this source file) — a thread touching a
container for the first time lazily creates its own instance there, without
taking the registry lock; the instance is then visited by every subsequent
cross-thread visitation of that container. -/
def touchThread {σ : Type} (h : Nat) (x : σ) (s : ProcState σ) : ProcState σ :=
  { s with heap := Function.update s.heap h (s.heap h ++ [x]) }

/-- A timer tick source: `tokio_old::timer::Interval::new(at, interval)` or
`tokio::time::interval_at(start, period)`, reduced to its initial delay and
period in seconds. -/
structure TimerInterval where
  initialDelay : Nat
  period : Nat

/-- `tokio_old::timer::Interval::new(Instant::now() + delay, period)`. -/
def TimerInterval.new (delay : Nat) (period : Nat) : TimerInterval :=
  ⟨delay, period⟩

/-- `tokio::time::interval_at(Instant::now() + delay, period)`. -/
def interval_at (delay : Nat) (period : Nat) : TimerInterval :=
  ⟨delay, period⟩

/-- A scheduler future as returned by the scheduling entry points.  `taskId`
is the ghost identity of the construction that produced it (distinct calls
produce distinct identities, modelling distinct boxed futures); `run` is its
behaviour when driven to completion on a finite tick stream, given as the list
of stream elements. -/
structure SchedulerTask (σ : Type) where
  taskId : Nat
  initialDelay : Nat
  period : Nat
  run : List Unit → ProcState σ → Option (ProcState σ)

/-- Semantics of `stream.for_each(|_| { STATS_AGGREGATOR.aggregate(); .. })`
driven to completion on a finite stream: one aggregation pass per element, in
order. -/
def forEachTick {σ : Type} (aggStep : σ → σ) :
    List Unit → ProcState σ → Option (ProcState σ)
  | [], s => some s
  | _ :: rest, s =>
    (StatsAggregator.aggregate aggStep s).bind (forEachTick aggStep rest)

/-- `schedule_stats_on_stream`: builds the future that aggregates the stats
once per element of the given stream.  `freshId` is the ghost identity of this
construction. -/
def schedule_stats_on_stream {σ : Type} (aggStep : σ → σ) (src : TimerInterval)
    (freshId : Nat) : SchedulerTask σ :=
  { taskId := freshId
    initialDelay := src.initialDelay
    period := src.period
    run := forEachTick aggStep }

/-- `schedule_stats_on_stream_preview`: same behaviour for the new-style
futures. -/
def schedule_stats_on_stream_preview {σ : Type} (aggStep : σ → σ)
    (src : TimerInterval) (freshId : Nat) : SchedulerTask σ :=
  { taskId := freshId
    initialDelay := src.initialDelay
    period := src.period
    run := forEachTick aggStep }

/-- Result of a scheduling entry point: `Ok(scheduler)` or
`Err(StatsScheduledError(scheduler))` — both carry a scheduler future. -/
inductive SchedResult (σ : Type) where
  | ok (task : SchedulerTask σ)
  | alreadyScheduled (task : SchedulerTask σ)

/-- The scheduler future carried by either constructor. -/
def SchedResult.task {σ : Type} : SchedResult σ → SchedulerTask σ
  | .ok t => t
  | .alreadyScheduled t => t

/-- Whether the entry point returned `Ok`. -/
def SchedResult.isOk {σ : Type} : SchedResult σ → Bool
  | .ok _ => true
  | .alreadyScheduled _ => false

/-- `schedule_stats_aggregation`: constructs a fresh scheduler on the one-second
interval timer, then swaps `STATS_SCHEDULED` to `true`; returns `Ok` when the
flag was previously `false` and the `AlreadyScheduled` error (carrying the
fresh scheduler) otherwise. -/
def schedule_stats_aggregation {σ : Type} (aggStep : σ → σ) (s : ProcState σ) :
    SchedResult σ × ProcState σ :=
  let scheduler := schedule_stats_on_stream aggStep (TimerInterval.new 1 1) s.taskCount
  let s' := { s with taskCount := s.taskCount + 1, scheduled := true }
  if s.scheduled then (SchedResult.alreadyScheduled scheduler, s')
  else (SchedResult.ok scheduler, s')

/-- `schedule_stats_aggregation_preview`: the new-style twin of
`schedule_stats_aggregation`, sharing the same `STATS_SCHEDULED` flag. -/
def schedule_stats_aggregation_preview {σ : Type} (aggStep : σ → σ)
    (s : ProcState σ) : SchedResult σ × ProcState σ :=
  let scheduler :=
    schedule_stats_on_stream_preview aggStep (interval_at 1 1) s.taskCount
  let s' := { s with taskCount := s.taskCount + 1, scheduled := true }
  if s.scheduled then (SchedResult.alreadyScheduled scheduler, s')
  else (SchedResult.ok scheduler, s')

/-- The two scheduling entry points. -/
inductive EntryPoint where
  | normal
  | preview

/-- Invoke one scheduling entry point. -/
def callEntry {σ : Type} (aggStep : σ → σ) :
    EntryPoint → ProcState σ → SchedResult σ × ProcState σ
  | .normal, s => schedule_stats_aggregation aggStep s
  | .preview, s => schedule_stats_aggregation_preview aggStep s

/-- Run a sequence of scheduling calls, collecting the results in order. -/
def runCalls {σ : Type} (aggStep : σ → σ) :
    List EntryPoint → ProcState σ → List (SchedResult σ) × ProcState σ
  | [], s => ([], s)
  | ep :: rest, s =>
    let rs := callEntry aggStep ep s
    let rest' := runCalls aggStep rest rs.2
    (rs.1 :: rest'.1, rest'.2)

/-- One operation of the core (return values discarded). -/
inductive Op (σ : Type) where
  | create
  | aggregate
  | scheduleNormal
  | schedulePreview
  | touch (h : Nat) (x : σ)

/-- Small-step semantics of one core operation on the process state. -/
def stepOp {σ : Type} (aggStep : σ → σ) : Op σ → ProcState σ → Option (ProcState σ)
  | .create, s => (create_map s).map Prod.snd
  | .aggregate, s => StatsAggregator.aggregate aggStep s
  | .scheduleNormal, s => some (schedule_stats_aggregation aggStep s).2
  | .schedulePreview, s => some (schedule_stats_aggregation_preview aggStep s).2
  | .touch h x, s => some (touchThread h x s)

/-- Run a sequence of core operations. -/
def runOps {σ : Type} (aggStep : σ → σ) :
    List (Op σ) → ProcState σ → Option (ProcState σ)
  | [], s => some s
  | op :: rest, s => (stepOp aggStep op s).bind (runOps aggStep rest)

/-- The state at process start: flag clear, mutex healthy, registry empty. -/
def initState (σ : Type) : ProcState σ :=
  { scheduled := false
    poisoned := false
    nextId := 0
    registry := []
    heap := fun _ => []
    taskCount := 0 }

/-- A small concrete state used by witnesses: two registered containers, the
first holding one instance. -/
def sEx : ProcState Nat :=
  { scheduled := false
    poisoned := false
    nextId := 2
    registry := [0, 1]
    heap := fun i => if i = 0 then [0] else []
    taskCount := 0 }

/-- The concrete state `sEx` with a poisoned registry mutex. -/
def sExPoisoned : ProcState Nat :=
  { sEx with poisoned := true }

/-! ### Helper lemmas -/

/-- Evaluating the sequential per-container fold of the aggregation pass at a
container identity applies one per-container visitation per occurrence of that
identity in the registry. -/
theorem foldl_update_count {σ : Type} (f : σ → σ) :
    ∀ (ids : List Nat) (h : Nat → List σ) (x : Nat),
      ids.foldl (fun acc id => Function.update acc id ((acc id).map f)) h x
        = (List.map f)^[ids.count x] (h x) := by
  intro ids
  induction ids with
  | nil => intro h x; simp
  | cons id rest ih =>
    intro h x
    simp only [List.foldl_cons]
    rw [ih]
    by_cases hx : x = id
    · subst hx
      rw [Function.update_same]
      simp [List.count_cons, Function.iterate_succ_apply]
    · rw [Function.update_noteq hx]
      have : (id == x) = false := by
        simp [Ne.symm hx]
      simp [List.count_cons, this]

/-- Iterating a mapped step over a list is mapping the iterated step. -/
theorem iterate_list_map {σ : Type} (f : σ → σ) :
    ∀ (n : Nat) (l : List σ), (List.map f)^[n] l = l.map f^[n] := by
  intro n
  induction n with
  | zero => intro l; simp
  | succ n ih =>
    intro l
    rw [Function.iterate_succ_apply, ih, List.map_map, ← Function.iterate_succ]

/-- A positive iterate of an idempotent function is the function itself. -/
theorem iterate_of_idem {σ : Type} (g : σ → σ) (hg : ∀ y, g (g y) = g y) :
    ∀ (n : Nat) (y : σ), g^[n + 1] y = g y := by
  intro n
  induction n with
  | zero => intro y; simp
  | succ n ih =>
    intro y
    rw [Function.iterate_succ_apply, ih (g y), hg]

/-- Applying the same iterate of an idempotent function twice changes nothing
after the first application. -/
theorem iterate_iterate_of_idem {σ : Type} (g : σ → σ) (hg : ∀ y, g (g y) = g y) :
    ∀ (n : Nat) (y : σ), g^[n] (g^[n] y) = g^[n] y := by
  intro n y
  cases n with
  | zero => simp
  | succ n =>
    rw [iterate_of_idem g hg, iterate_of_idem g hg, hg]

/-- Mapping an idempotent step twice equals mapping it once. -/
theorem map_of_idem {σ : Type} (f : σ → σ) (hf : ∀ y, f (f y) = f y) :
    ∀ l : List σ, (l.map f).map f = l.map f := by
  intro l
  induction l with
  | nil => simp
  | cons a l ih => simp [hf, ih]

/-- Aggregation on a poisoned registry mutex panics. -/
theorem aggregate_poisoned {σ : Type} (f : σ → σ) (s : ProcState σ)
    (hp : s.poisoned = true) : StatsAggregator.aggregate f s = none := by
  simp [StatsAggregator.aggregate, lockAcquire, hp]

/-- Closed form of one aggregation pass on a healthy mutex: each container's
instances get one visitation per occurrence of the container in the registry;
all other fields are untouched. -/
theorem aggregate_eq {σ : Type} (f : σ → σ) (s : ProcState σ)
    (hp : s.poisoned = false) :
    StatsAggregator.aggregate f s =
      some { s with
        heap := fun x => (List.map f)^[s.registry.count x] (s.heap x) } := by
  have hfold :
      s.registry.foldl (fun h id => Function.update h id ((h id).map f)) s.heap
        = fun x => (List.map f)^[s.registry.count x] (s.heap x) :=
    funext fun x => foldl_update_count f s.registry s.heap x
  simp [StatsAggregator.aggregate, lockAcquire, hp, hfold]

/-- `create_map` on a poisoned registry mutex panics. -/
theorem create_map_poisoned {σ : Type} (s : ProcState σ)
    (hp : s.poisoned = true) : create_map s = (none : Option (Nat × ProcState σ)) := by
  simp [create_map, lockAcquire, hp]

/-- Closed form of `create_map` on a healthy mutex. -/
theorem create_map_eq {σ : Type} (s : ProcState σ) (hp : s.poisoned = false) :
    create_map s =
      some (s.nextId,
        { s with
          registry := s.registry ++ [s.nextId]
          heap := Function.update s.heap s.nextId []
          nextId := s.nextId + 1 }) := by
  simp [create_map, lockAcquire, hp]

/-- Closed form of the finite-stream driver semantics on a healthy mutex. -/
theorem forEachTick_eq {σ : Type} (f : σ → σ) :
    ∀ (ticks : List Unit) (s : ProcState σ), s.poisoned = false →
      forEachTick f ticks s =
        some { s with
          heap := fun x =>
            (List.map f)^[ticks.length * s.registry.count x] (s.heap x) } := by
  intro ticks
  induction ticks with
  | nil =>
    intro s hp
    simp [forEachTick]
  | cons t rest ih =>
    intro s hp
    simp only [forEachTick]
    rw [aggregate_eq f s hp]
    rw [Option.some_bind]
    rw [ih { s with
      heap := fun x => (List.map f)^[s.registry.count x] (s.heap x) } hp]
    simp only [Option.some.injEq]
    apply ProcState.ext <;> try rfl
    funext x
    show (List.map f)^[rest.length * s.registry.count x]
        ((List.map f)^[s.registry.count x] (s.heap x))
      = (List.map f)^[(t :: rest).length * s.registry.count x] (s.heap x)
    rw [← Function.iterate_add_apply, List.length_cons]
    congr 1
    ring

/-- Either entry point leaves the flag set. -/
theorem callEntry_scheduled {σ : Type} (f : σ → σ) (ep : EntryPoint)
    (s : ProcState σ) : ((callEntry f ep s).2).scheduled = true := by
  cases ep <;>
    · by_cases hs : s.scheduled <;>
        simp [callEntry, schedule_stats_aggregation,
          schedule_stats_aggregation_preview, hs]

/-- Either entry point returns `Ok` exactly when the flag was clear. -/
theorem callEntry_isOk {σ : Type} (f : σ → σ) (ep : EntryPoint)
    (s : ProcState σ) : ((callEntry f ep s).1).isOk = !s.scheduled := by
  cases ep <;>
    · by_cases hs : s.scheduled <;>
        simp [callEntry, schedule_stats_aggregation,
          schedule_stats_aggregation_preview, hs, SchedResult.isOk]

/-- The task carried by either entry point's result, on either branch, is the
one constructed by this call: ghost identity `s.taskCount`, one-second initial
delay, one-second period, and the real stream-driven aggregation behaviour. -/
theorem callEntry_task {σ : Type} (f : σ → σ) (ep : EntryPoint)
    (s : ProcState σ) :
    ((callEntry f ep s).1).task.taskId = s.taskCount
      ∧ ((callEntry f ep s).1).task.initialDelay = 1
      ∧ ((callEntry f ep s).1).task.period = 1
      ∧ ((callEntry f ep s).1).task.run = forEachTick f := by
  cases ep <;>
    · by_cases hs : s.scheduled <;>
        simp [callEntry, schedule_stats_aggregation,
          schedule_stats_aggregation_preview, hs, SchedResult.task,
          schedule_stats_on_stream, schedule_stats_on_stream_preview,
          TimerInterval.new, interval_at]

/-- Either entry point advances the ghost task counter by one. -/
theorem callEntry_taskCount {σ : Type} (f : σ → σ) (ep : EntryPoint)
    (s : ProcState σ) : ((callEntry f ep s).2).taskCount = s.taskCount + 1 := by
  cases ep <;>
    · by_cases hs : s.scheduled <;>
        simp [callEntry, schedule_stats_aggregation,
          schedule_stats_aggregation_preview, hs]

/-- With the flag already set, either entry point returns the
`AlreadyScheduled` error carrying its freshly built task. -/
theorem callEntry_already {σ : Type} (f : σ → σ) (ep : EntryPoint)
    (s : ProcState σ) (hs : s.scheduled = true) :
    (callEntry f ep s).1 = SchedResult.alreadyScheduled ((callEntry f ep s).1).task := by
  cases ep <;>
    simp [callEntry, schedule_stats_aggregation,
      schedule_stats_aggregation_preview, hs, SchedResult.task]

/-- Once the flag is set, every call in a sequence of scheduling calls returns
the error variant. -/
theorem runCalls_allErr {σ : Type} (f : σ → σ) :
    ∀ (eps : List EntryPoint) (s : ProcState σ), s.scheduled = true →
      ((runCalls f eps s).1).map SchedResult.isOk
        = List.replicate eps.length false := by
  intro eps
  induction eps with
  | nil => intro s hs; simp [runCalls]
  | cons ep rest ih =>
    intro s hs
    simp only [runCalls, List.map_cons, List.length_cons]
    rw [callEntry_isOk, hs, ih _ (callEntry_scheduled f ep s)]
    simp [List.replicate_succ]

/-- Once the flag is set, no call in a sequence of scheduling calls returns
`Ok`. -/
theorem runCalls_countOk_zero {σ : Type} (f : σ → σ) :
    ∀ (eps : List EntryPoint) (s : ProcState σ), s.scheduled = true →
      ((runCalls f eps s).1).countP SchedResult.isOk = 0 := by
  intro eps
  induction eps with
  | nil => intro s hs; simp [runCalls]
  | cons ep rest ih =>
    intro s hs
    simp only [runCalls, List.countP_cons]
    rw [callEntry_isOk, hs, ih _ (callEntry_scheduled f ep s)]
    simp

/-- One step of any core operation only ever appends to the registry. -/
theorem stepOp_registry {σ : Type} (f : σ → σ) (op : Op σ) (s s' : ProcState σ)
    (hstep : stepOp f op s = some s') :
    ∃ t, s'.registry = s.registry ++ t := by
  cases op with
  | create =>
    by_cases hp : s.poisoned
    · rw [stepOp, create_map_poisoned s hp] at hstep
      simp at hstep
    · rw [stepOp, create_map_eq s (by simpa using hp)] at hstep
      simp only [Option.map_some', Option.some.injEq] at hstep
      exact ⟨[s.nextId], by rw [← hstep]⟩
  | aggregate =>
    by_cases hp : s.poisoned
    · rw [stepOp, aggregate_poisoned f s hp] at hstep
      simp at hstep
    · rw [stepOp, aggregate_eq f s (by simpa using hp)] at hstep
      simp only [Option.some.injEq] at hstep
      exact ⟨[], by rw [← hstep]; simp⟩
  | scheduleNormal =>
    simp only [stepOp, Option.some.injEq] at hstep
    refine ⟨[], ?_⟩
    rw [← hstep]
    by_cases hs : s.scheduled <;> simp [schedule_stats_aggregation, hs]
  | schedulePreview =>
    simp only [stepOp, Option.some.injEq] at hstep
    refine ⟨[], ?_⟩
    rw [← hstep]
    by_cases hs : s.scheduled <;> simp [schedule_stats_aggregation_preview, hs]
  | touch h x =>
    simp only [stepOp, Option.some.injEq] at hstep
    exact ⟨[], by rw [← hstep]; simp [touchThread]⟩

/-- Across any sequence of core operations, the registry only grows by
appending. -/
theorem runOps_registry {σ : Type} (f : σ → σ) :
    ∀ (ops : List (Op σ)) (s₀ s₁ : ProcState σ), runOps f ops s₀ = some s₁ →
      ∃ t, s₁.registry = s₀.registry ++ t := by
  intro ops
  induction ops with
  | nil =>
    intro s₀ s₁ hrun
    simp only [runOps, Option.some.injEq] at hrun
    exact ⟨[], by rw [← hrun]; simp⟩
  | cons op rest ih =>
    intro s₀ s₁ hrun
    simp only [runOps] at hrun
    cases hstep : stepOp f op s₀ with
    | none => rw [hstep] at hrun; simp at hrun
    | some sMid =>
      rw [hstep, Option.some_bind] at hrun
      obtain ⟨t₁, ht₁⟩ := stepOp_registry f op s₀ sMid hstep
      obtain ⟨t₂, ht₂⟩ := ih sMid s₁ hrun
      exact ⟨t₁ ++ t₂, by rw [ht₂, ht₁, List.append_assoc]⟩

/-! ### Claim theorems -/

/-- C1: In every process execution (the `STATS_SCHEDULED` flag starts clear),
the first call to a scheduling entry point returns `Ok` with the scheduler
task, and every subsequent call returns the `AlreadyScheduled` error. -/
theorem schedule_first_ok_then_already_scheduled {σ : Type} (f : σ → σ)
    (ep : EntryPoint) (eps : List EntryPoint) (s : ProcState σ)
    (hs : s.scheduled = false) :
    ((runCalls f (ep :: eps) s).1).map SchedResult.isOk
      = true :: List.replicate eps.length false := by
  simp only [runCalls, List.map_cons]
  rw [callEntry_isOk, hs, runCalls_allErr f eps _ (callEntry_scheduled f ep s)]
  simp

/-- Witness for C1: a concrete three-call execution from process start. -/
theorem schedule_first_ok_then_already_scheduled_witness :
    (initState Nat).scheduled = false
      ∧ ((runCalls (fun x : Nat => x + 1)
            [EntryPoint.normal, EntryPoint.preview, EntryPoint.normal]
            (initState Nat)).1).map SchedResult.isOk
          = true :: List.replicate 2 false :=
  ⟨rfl,
    schedule_first_ok_then_already_scheduled (fun x : Nat => x + 1)
      EntryPoint.normal [EntryPoint.preview, EntryPoint.normal]
      (initState Nat) rfl⟩

/-- C9: The two entry points share the single `STATS_SCHEDULED` flag: after a
successful normal call the preview call errs and symmetrically, and across any
mixed sequence of calls at most one `Ok` is returned. -/
theorem entry_points_share_scheduled_flag {σ : Type} (f : σ → σ)
    (s : ProcState σ) (hs : s.scheduled = false) :
    ((schedule_stats_aggregation f s).1.isOk = true
        ∧ ((schedule_stats_aggregation_preview f
              (schedule_stats_aggregation f s).2).1).isOk = false)
      ∧ ((schedule_stats_aggregation_preview f s).1.isOk = true
        ∧ ((schedule_stats_aggregation f
              (schedule_stats_aggregation_preview f s).2).1).isOk = false)
      ∧ ∀ eps : List EntryPoint,
          ((runCalls f eps s).1).countP SchedResult.isOk ≤ 1 := by
  have hsn : ((schedule_stats_aggregation f s).2).scheduled = true :=
    callEntry_scheduled f EntryPoint.normal s
  have hsp : ((schedule_stats_aggregation_preview f s).2).scheduled = true :=
    callEntry_scheduled f EntryPoint.preview s
  refine ⟨⟨?_, ?_⟩, ⟨?_, ?_⟩, ?_⟩
  · have := callEntry_isOk f EntryPoint.normal s
    rw [callEntry] at this
    rw [this, hs]
    rfl
  · have := callEntry_isOk f EntryPoint.preview (schedule_stats_aggregation f s).2
    rw [callEntry] at this
    rw [this, hsn]
    rfl
  · have := callEntry_isOk f EntryPoint.preview s
    rw [callEntry] at this
    rw [this, hs]
    rfl
  · have := callEntry_isOk f EntryPoint.normal (schedule_stats_aggregation_preview f s).2
    rw [callEntry] at this
    rw [this, hsp]
    rfl
  · intro eps
    cases eps with
    | nil => simp [runCalls]
    | cons ep rest =>
      simp only [runCalls, List.countP_cons]
      rw [runCalls_countOk_zero f rest _ (callEntry_scheduled f ep s)]
      by_cases hok : ((callEntry f ep s).1).isOk <;> simp [hok]

/-- Witness for C9 at a concrete state. -/
theorem entry_points_share_scheduled_flag_witness :
    sEx.scheduled = false
      ∧ ((schedule_stats_aggregation (fun x : Nat => x + 1) sEx).1.isOk = true
        ∧ ((schedule_stats_aggregation_preview (fun x : Nat => x + 1)
              (schedule_stats_aggregation (fun x : Nat => x + 1) sEx).2).1).isOk
            = false) :=
  ⟨rfl, (entry_points_share_scheduled_flag (fun x : Nat => x + 1) sEx rfl).1⟩

/-- C3: Every call to a scheduling entry point constructs a fresh scheduler
task (ghost identity equal to the pre-call construction counter, implementing
the real stream-driven aggregation) before consulting the flag, so a second
call returns the `AlreadyScheduled` error still carrying a just-constructed
runnable task distinct from the first call's task. -/
theorem every_call_constructs_fresh_runnable_task {σ : Type} (f : σ → σ)
    (ep : EntryPoint) (s : ProcState σ) :
    ((callEntry f ep s).1).task.taskId = s.taskCount
      ∧ ((callEntry f ep s).2).taskCount = s.taskCount + 1
      ∧ ((callEntry f ep s).1).task.run = forEachTick f
      ∧ (s.scheduled = true →
          (callEntry f ep s).1
            = SchedResult.alreadyScheduled (((callEntry f ep s).1).task))
      ∧ ∀ ep₂ : EntryPoint,
          ((callEntry f ep₂ (callEntry f ep s).2).1).task.taskId
            ≠ ((callEntry f ep s).1).task.taskId := by
  obtain ⟨h1, _, _, h4⟩ := callEntry_task f ep s
  refine ⟨h1, callEntry_taskCount f ep s, h4, callEntry_already f ep s, ?_⟩
  intro ep₂
  rw [(callEntry_task f ep₂ _).1, callEntry_taskCount, h1]
  omega

/-- Witness for C3: a call on a state whose flag is already set. -/
theorem every_call_constructs_fresh_runnable_task_witness :
    ({ sEx with scheduled := true } : ProcState Nat).scheduled = true
      ∧ (callEntry (fun x : Nat => x + 1) EntryPoint.preview
            { sEx with scheduled := true }).1
          = SchedResult.alreadyScheduled
              (((callEntry (fun x : Nat => x + 1) EntryPoint.preview
                  { sEx with scheduled := true }).1).task)
      ∧ ((callEntry (fun x : Nat => x + 1) EntryPoint.preview
            { sEx with scheduled := true }).1).task.taskId
          = ({ sEx with scheduled := true } : ProcState Nat).taskCount :=
  ⟨rfl,
    (every_call_constructs_fresh_runnable_task (fun x : Nat => x + 1)
      EntryPoint.preview { sEx with scheduled := true }).2.2.2.1 rfl,
    (every_call_constructs_fresh_runnable_task (fun x : Nat => x + 1)
      EntryPoint.preview { sEx with scheduled := true }).1⟩

/-- C6: The scheduler task returned by either entry point is bound to a timer
firing first after one second and then every second, and each firing triggers
exactly one aggregation pass. -/
theorem scheduler_timer_one_second_delay_period {σ : Type} (f : σ → σ)
    (s : ProcState σ) :
    (((schedule_stats_aggregation f s).1).task.initialDelay = 1
      ∧ ((schedule_stats_aggregation f s).1).task.period = 1
      ∧ ∀ (ticks : List Unit) (s' : ProcState σ),
          ((schedule_stats_aggregation f s).1).task.run (() :: ticks) s'
            = (StatsAggregator.aggregate f s').bind
                (((schedule_stats_aggregation f s).1).task.run ticks))
    ∧ (((schedule_stats_aggregation_preview f s).1).task.initialDelay = 1
      ∧ ((schedule_stats_aggregation_preview f s).1).task.period = 1
      ∧ ∀ (ticks : List Unit) (s' : ProcState σ),
          ((schedule_stats_aggregation_preview f s).1).task.run (() :: ticks) s'
            = (StatsAggregator.aggregate f s').bind
                (((schedule_stats_aggregation_preview f s).1).task.run ticks)) := by
  by_cases hs : s.scheduled <;>
    refine ⟨⟨?_, ?_, ?_⟩, ⟨?_, ?_, ?_⟩⟩ <;>
      simp [schedule_stats_aggregation, schedule_stats_aggregation_preview,
        schedule_stats_on_stream, schedule_stats_on_stream_preview,
        TimerInterval.new, interval_at, SchedResult.task, hs, forEachTick]

/-- C2: One aggregation pass acquires the registry lock and, for each
registered container in registration order, applies the external `aggregate()`
exactly once to every per-thread instance currently present in it, with no
other effect on the state. -/
theorem aggregate_visits_each_container_once {σ : Type} (f : σ → σ)
    (s : ProcState σ) (hnd : s.registry.Nodup) (hp : s.poisoned = false) :
    ∃ s', StatsAggregator.aggregate f s = some s'
      ∧ (∀ h ∈ s.registry, s'.heap h = (s.heap h).map f)
      ∧ (∀ h, h ∉ s.registry → s'.heap h = s.heap h)
      ∧ s'.registry = s.registry
      ∧ s'.scheduled = s.scheduled
      ∧ s'.poisoned = s.poisoned
      ∧ s'.nextId = s.nextId
      ∧ s'.taskCount = s.taskCount := by
  refine ⟨_, aggregate_eq f s hp, ?_, ?_, rfl, rfl, rfl, rfl, rfl⟩
  · intro h hmem
    show (List.map f)^[s.registry.count h] (s.heap h) = (s.heap h).map f
    rw [List.count_eq_one_of_mem hnd hmem]
    simp
  · intro h hmem
    show (List.map f)^[s.registry.count h] (s.heap h) = s.heap h
    rw [List.count_eq_zero.2 hmem]
    simp

/-- Witness for C2 at a concrete two-container state. -/
theorem aggregate_visits_each_container_once_witness :
    (sEx.registry.Nodup ∧ sEx.poisoned = false)
      ∧ ∃ s', StatsAggregator.aggregate (fun x : Nat => x + 1) sEx = some s'
          ∧ (∀ h ∈ sEx.registry, s'.heap h = (sEx.heap h).map (fun x => x + 1))
          ∧ (∀ h, h ∉ sEx.registry → s'.heap h = sEx.heap h)
          ∧ s'.registry = sEx.registry
          ∧ s'.scheduled = sEx.scheduled
          ∧ s'.poisoned = sEx.poisoned
          ∧ s'.nextId = sEx.nextId
          ∧ s'.taskCount = sEx.taskCount :=
  ⟨⟨by decide, rfl⟩,
    aggregate_visits_each_container_once (fun x : Nat => x + 1) sEx (by decide) rfl⟩

/-- C5: Driving the future returned by either low-level driver to completion
on a finite stream of `N` ticks runs the aggregation pass exactly `N` times,
so each instance of each registered container receives exactly `N`
applications of `aggregate()`. -/
theorem stream_driver_aggregates_once_per_element {σ : Type} (f : σ → σ)
    (src : TimerInterval) (freshId : Nat) (ticks : List Unit) (s : ProcState σ)
    (hnd : s.registry.Nodup) (hp : s.poisoned = false) :
    ∃ s', (schedule_stats_on_stream f src freshId).run ticks s = some s'
      ∧ (schedule_stats_on_stream_preview f src freshId).run ticks s = some s'
      ∧ (∀ h ∈ s.registry, s'.heap h = (s.heap h).map f^[ticks.length])
      ∧ (∀ h, h ∉ s.registry → s'.heap h = s.heap h)
      ∧ s'.registry = s.registry := by
  refine ⟨_, forEachTick_eq f ticks s hp, forEachTick_eq f ticks s hp, ?_, ?_, rfl⟩
  · intro h hmem
    show (List.map f)^[ticks.length * s.registry.count h] (s.heap h)
      = (s.heap h).map f^[ticks.length]
    rw [List.count_eq_one_of_mem hnd hmem, Nat.mul_one, iterate_list_map]
  · intro h hmem
    show (List.map f)^[ticks.length * s.registry.count h] (s.heap h) = s.heap h
    rw [List.count_eq_zero.2 hmem, Nat.mul_zero]
    simp

/-- Witness for C5: a three-element tick stream with a counting instance
yields exactly three invocations. -/
theorem stream_driver_aggregates_once_per_element_witness :
    (sEx.registry.Nodup ∧ sEx.poisoned = false)
      ∧ (∃ s', (schedule_stats_on_stream (fun x : Nat => x + 1)
              (TimerInterval.new 1 1) 0).run [(), (), ()] sEx = some s'
          ∧ (schedule_stats_on_stream_preview (fun x : Nat => x + 1)
              (TimerInterval.new 1 1) 0).run [(), (), ()] sEx = some s'
          ∧ (∀ h ∈ sEx.registry,
              s'.heap h = (sEx.heap h).map (fun x : Nat => x + 1)^[([(), (), ()] : List Unit).length])
          ∧ (∀ h, h ∉ sEx.registry → s'.heap h = sEx.heap h)
          ∧ s'.registry = sEx.registry)
      ∧ (fun x : Nat => x + 1)^[([(), (), ()] : List Unit).length] 0 = 3 :=
  ⟨⟨by decide, rfl⟩,
    stream_driver_aggregates_once_per_element (fun x : Nat => x + 1)
      (TimerInterval.new 1 1) 0 [(), (), ()] sEx (by decide) rfl,
    by decide⟩

/-- C4: `create_map` (on a healthy mutex) succeeds, appends exactly one entry
— the returned handle — at the end of the registry, and no core operation
ever removes an entry, so the registry only grows by appending and its size is
monotonically non-decreasing across any sequence of operations. -/
theorem create_map_appends_registry_monotone {σ : Type} (f : σ → σ) :
    (∀ s : ProcState σ, s.poisoned = false →
      ∃ s', create_map s = some (s.nextId, s')
        ∧ s'.registry = s.registry ++ [s.nextId]
        ∧ s'.heap s.nextId = []
        ∧ s'.nextId = s.nextId + 1)
    ∧ ∀ (ops : List (Op σ)) (s₀ s₁ : ProcState σ), runOps f ops s₀ = some s₁ →
        (∃ t, s₁.registry = s₀.registry ++ t)
        ∧ s₀.registry.length ≤ s₁.registry.length := by
  constructor
  · intro s hp
    refine ⟨_, create_map_eq s hp, rfl, ?_, rfl⟩
    show Function.update s.heap s.nextId [] s.nextId = []
    exact Function.update_same _ _ _
  · intro ops s₀ s₁ hrun
    obtain ⟨t, ht⟩ := runOps_registry f ops s₀ s₁ hrun
    exact ⟨⟨t, ht⟩, by rw [ht]; simp⟩

/-- Witness for C4 at a concrete state and a concrete operation sequence. -/
theorem create_map_appends_registry_monotone_witness :
    (sEx.poisoned = false
      ∧ ∃ s', create_map sEx = some (sEx.nextId, s')
          ∧ s'.registry = sEx.registry ++ [sEx.nextId]
          ∧ s'.heap sEx.nextId = []
          ∧ s'.nextId = sEx.nextId + 1)
      ∧ ((∃ t, sEx.registry = sEx.registry ++ t)
          ∧ sEx.registry.length ≤ sEx.registry.length) :=
  ⟨⟨rfl, (create_map_appends_registry_monotone (fun x : Nat => x + 1)).1 sEx rfl⟩,
    (create_map_appends_registry_monotone (fun x : Nat => x + 1)).2 [] sEx sEx rfl⟩

/-- C7: With a healthy mutex, lock acquisition in the aggregation pass and in
`create_map` never fails; with a poisoned mutex, both panic instead of
continuing. -/
theorem lock_acquisition_panics_iff_poisoned {σ : Type} (f : σ → σ)
    (s : ProcState σ) :
    (s.poisoned = false →
      (StatsAggregator.aggregate f s).isSome = true
        ∧ (create_map s).isSome = true)
    ∧ (s.poisoned = true →
      StatsAggregator.aggregate f s = none ∧ create_map s = none) := by
  constructor
  · intro hp
    rw [aggregate_eq f s hp, create_map_eq s hp]
    exact ⟨rfl, rfl⟩
  · intro hp
    exact ⟨aggregate_poisoned f s hp, create_map_poisoned s hp⟩

/-- Witness for C7 on a healthy and on a poisoned state. -/
theorem lock_acquisition_panics_iff_poisoned_witness :
    (sEx.poisoned = false
      ∧ (StatsAggregator.aggregate (fun x : Nat => x + 1) sEx).isSome = true
      ∧ (create_map sEx).isSome = true)
    ∧ (sExPoisoned.poisoned = true
      ∧ StatsAggregator.aggregate (fun x : Nat => x + 1) sExPoisoned = none
      ∧ create_map sExPoisoned = none) :=
  ⟨⟨rfl, (lock_acquisition_panics_iff_poisoned (fun x : Nat => x + 1) sEx).1 rfl⟩,
    ⟨rfl, (lock_acquisition_panics_iff_poisoned (fun x : Nat => x + 1) sExPoisoned).2 rfl⟩⟩

/-- C8: When the external `aggregate()` is idempotent in the absence of
intervening writes, two consecutive aggregation passes are the same as one. -/
theorem aggregate_all_idempotent {σ : Type} (f : σ → σ)
    (hf : ∀ y, f (f y) = f y) (s : ProcState σ) :
    (StatsAggregator.aggregate f s).bind (StatsAggregator.aggregate f)
      = StatsAggregator.aggregate f s := by
  by_cases hp : s.poisoned
  · rw [aggregate_poisoned f s hp]
    rfl
  · have hp' : s.poisoned = false := by simpa using hp
    rw [aggregate_eq f s hp', Option.some_bind,
      aggregate_eq f { s with
        heap := fun x => (List.map f)^[s.registry.count x] (s.heap x) } hp']
    simp only [Option.some.injEq]
    apply ProcState.ext <;> try rfl
    funext x
    show (List.map f)^[s.registry.count x]
        ((List.map f)^[s.registry.count x] (s.heap x))
      = (List.map f)^[s.registry.count x] (s.heap x)
    exact iterate_iterate_of_idem (List.map f)
      (fun l => map_of_idem f hf l) _ _

/-- Witness for C8 with a concrete idempotent step. -/
theorem aggregate_all_idempotent_witness :
    (∀ y : Nat, (fun _ : Nat => 7) ((fun _ : Nat => 7) y) = (fun _ : Nat => 7) y)
      ∧ (StatsAggregator.aggregate (fun _ : Nat => 7) sEx).bind
            (StatsAggregator.aggregate (fun _ : Nat => 7))
          = StatsAggregator.aggregate (fun _ : Nat => 7) sEx :=
  ⟨fun _ => rfl, aggregate_all_idempotent (fun _ : Nat => 7) (fun _ => rfl) sEx⟩

/-- C10: The handle returned by `create_map` is the very entry appended to the
registry (one shared container), `create_map` leaves the flag and all
previously registered entries untouched, and an instance later created through
the returned handle is visited by the next aggregation pass. -/
theorem create_map_shared_handle_frame {σ : Type} (f : σ → σ) (s : ProcState σ)
    (hp : s.poisoned = false) (hb : ∀ id ∈ s.registry, id < s.nextId) :
    ∃ h s', create_map s = some (h, s')
      ∧ s'.registry = s.registry ++ [h]
      ∧ s'.scheduled = s.scheduled
      ∧ s'.taskCount = s.taskCount
      ∧ (∀ id ∈ s.registry, s'.heap id = s.heap id)
      ∧ ∀ x : σ, ∃ s'', StatsAggregator.aggregate f (touchThread h x s') = some s''
          ∧ s''.heap h = ((s'.heap h) ++ [x]).map f := by
  have hnot : s.nextId ∉ s.registry := fun hmem => absurd (hb _ hmem) (lt_irrefl _)
  refine ⟨s.nextId,
    { s with
      registry := s.registry ++ [s.nextId]
      heap := Function.update s.heap s.nextId []
      nextId := s.nextId + 1 },
    create_map_eq s hp, rfl, rfl, rfl, ?_, ?_⟩
  · intro id hmem
    show Function.update s.heap s.nextId [] id = s.heap id
    refine Function.update_noteq (fun he => hnot ?_) _ _
    rw [← he]
    exact hmem
  · intro x
    refine ⟨_, aggregate_eq f _ hp, ?_⟩
    have hcount : (s.registry ++ [s.nextId]).count s.nextId = 1 := by
      rw [List.count_append, List.count_eq_zero.2 hnot]
      simp
    show (List.map f)^[(s.registry ++ [s.nextId]).count s.nextId]
        (Function.update (Function.update s.heap s.nextId []) s.nextId
          (Function.update s.heap s.nextId [] s.nextId ++ [x]) s.nextId)
      = (Function.update s.heap s.nextId [] s.nextId ++ [x]).map f
    rw [hcount, Function.update_same]
    simp

/-- Witness for C10 at a concrete state. -/
theorem create_map_shared_handle_frame_witness :
    (sEx.poisoned = false ∧ ∀ id ∈ sEx.registry, id < sEx.nextId)
      ∧ ∃ h s', create_map sEx = some (h, s')
          ∧ s'.registry = sEx.registry ++ [h]
          ∧ s'.scheduled = sEx.scheduled
          ∧ s'.taskCount = sEx.taskCount
          ∧ (∀ id ∈ sEx.registry, s'.heap id = sEx.heap id)
          ∧ ∀ x : Nat, ∃ s'',
              StatsAggregator.aggregate (fun y : Nat => y + 1)
                  (touchThread h x s') = some s''
                ∧ s''.heap h = ((s'.heap h) ++ [x]).map (fun y : Nat => y + 1) :=
  ⟨⟨rfl, by decide⟩,
    create_map_shared_handle_frame (fun y : Nat => y + 1) sEx rfl (by decide)⟩
